import Mathlib

/-!
Shallow embedding of the workload execution and measurement pipeline of the
chaisql-benchmark repository (package `bench`: result.go, workloads.go,
runner.go), together with theorems settling the specification claims.

Modelling conventions:
* Go `time.Duration` (int64 nanoseconds) is modelled as `Int`.
* Keys (`k` column of the `kv` table) are `String`, ordered by the string
  order (SQL `ORDER BY k DESC`, Go `>` / `<` on strings).
* The float quantile argument `q` of `histogram.quantile` is modelled as an
  exact rational given by a numerator/denominator pair of naturals
  (0.50 ↦ 50/100, 0.95 ↦ 95/100, 0.99 ↦ 99/100, 0.01 ↦ 1/100); the float
  index computation `int(float64(len(s)-1) * q)` is modelled as the exact
  `⌊(n-1)·q⌋ = (n-1)*qn / qd` (natural division).
* `math.Log` inside `sparkline` is modelled by an abstract transform
  `lf : Int → ℚ`; every property proved below holds for an arbitrary
  transform.  `int(x)` on a nonnegative float is truncation, modelled by
  `ratTrunc`; `math.Round` on a nonnegative float is `⌊x + 1/2⌋`.
* Concurrent workers feeding the channel-based collector are modelled by
  per-worker lists of iteration outcomes; the collector consumes the
  concatenation of all workers' events (sample order is irrelevant: the
  aggregate counts and the sorted sample multiset are order-insensitive).
* Database I/O outcomes (connection open, schema exec, per-operation
  success/failure and latencies) are oracle inputs carried by environment
  records; the embedding is the control flow of the Go code over those
  outcomes.
-/

namespace ChaiBench

/-- The index used by `histogram.quantile` (result.go line 43):
`idx := int(float64(len(s)-1) * q)`, i.e. `⌊(n-1)·(qn/qd)⌋`,
computed exactly with natural division. -/
def qIdx (n qn qd : Nat) : Nat := ((n - 1) * qn) / qd

/-- `slices.Sort` on a `[]time.Duration` (result.go line 42): ascending sort. -/
def sortAsc (l : List Int) : List Int := List.insertionSort (· ≤ ·) l

/-- The specification's index `⌊(n-1)·q⌋` for quantile `q = qn/qd`, written
with the rational floor; `qIdx_eq_floor` below shows the code's index
computation equals it. -/
def floorIdx (n qn qd : Nat) : Nat :=
  (⌊((n : ℚ) - 1) * ((qn : ℚ) / (qd : ℚ))⌋).toNat

/-- `histogram.quantile` (result.go lines 37-45): 0 on an empty sample set,
otherwise the sorted sample at index `⌊(n-1)·q⌋`. -/
def quantile (samples : List Int) (qn qd : Nat) : Int :=
  if samples = [] then 0
  else (sortAsc samples).getD (qIdx samples.length qn qd) 0

/-- `sort.Slice(s, func(i, j int) bool { return s[i] < s[j] })` from the older
variant of the result logic (src/unnamed/part_001 line 48): a sort whose
"less" comparator is `<`, i.e. whose "le" test is `¬ (b < a)`.  Modelled with
the distinct `mergeSort` algorithm to reflect the distinct Go sort routine. -/
def sortSlice (l : List Int) : List Int :=
  List.mergeSort l (fun a b => !decide (b < a))

/-- `histogram.quantile` of the older variant (src/unnamed/part_001 lines
43-51): identical to `quantile` except that it sorts with `sort.Slice`. -/
def quantileOld (samples : List Int) (qn qd : Nat) : Int :=
  if samples = [] then 0
  else (sortSlice samples).getD (qIdx samples.length qn qd) 0

/-- A benchmark measurement record (result.go lines 15-29).  The internal
histogram (`hist.samples`) is kept as the list of recorded latency samples;
the channel plumbing (`latCh`, `collectorDone`) is modelled by the explicit
event application below. -/
structure Result where
  Workload : String
  Concurrency : Nat
  Duration : Int
  Ops : Int
  Errors : Int
  P50 : Int
  P95 : Int
  P99 : Int
  hist : List Int
deriving DecidableEq

/-- `newResult` (result.go lines 58-68): all counters, percentiles and the
histogram start at zero/empty. -/
def newResult (name : String) (conc : Nat) (dur : Int) : Result :=
  { Workload := name, Concurrency := conc, Duration := dur,
    Ops := 0, Errors := 0, P50 := 0, P95 := 0, P99 := 0, hist := [] }

/-- One message sent by a worker to a `Result`: a latency sample
(`addLatency`, consumed by the collector goroutine) or an error tally
(`addErrorCnt`). -/
inductive Event where
  | lat (d : Int)
  | err
deriving DecidableEq

/-- Effect of one event on the record: a sample appends to the histogram and
bumps `Ops` (result.go lines 70-76); an error bumps `Errors` (line 82). -/
def applyEvent (r : Result) : Event → Result
  | Event.lat d => { r with Ops := r.Ops + 1, hist := r.hist ++ [d] }
  | Event.err => { r with Errors := r.Errors + 1 }

/-- Sequential consumption of a list of events (the single collector
draining the channel plus the atomic error counter). -/
def applyEvents (r : Result) (evs : List Event) : Result :=
  evs.foldl applyEvent r

/-- Number of error events in a list. -/
def errCount : List Event → Nat
  | [] => 0
  | Event.err :: evs => errCount evs + 1
  | Event.lat _ :: evs => errCount evs

/-- The latency samples carried by a list of events, in order. -/
def latSamples : List Event → List Int
  | [] => []
  | Event.err :: evs => latSamples evs
  | Event.lat d :: evs => d :: latSamples evs

/-- `Result.finalize` (result.go lines 83-91): after the collector has
drained, compute the three percentiles from the histogram. -/
def finalize (r : Result) : Result :=
  { r with P50 := quantile r.hist 50 100,
           P95 := quantile r.hist 95 100,
           P99 := quantile r.hist 99 100 }

/-- `quantileDur` (result.go lines 223-235): nearest-rank index into an
already sorted list, with the `q ≤ 0` and `q ≥ 1` guards. -/
def quantileDur (sorted : List Int) (qn qd : Nat) : Int :=
  if sorted = [] then 0
  else if qn = 0 then sorted.getD 0 0
  else if qd ≤ qn then sorted.getD (sorted.length - 1) 0
  else sorted.getD (qIdx sorted.length qn qd) 0

/-- The clamp loop of `sparkline` (result.go lines 151-155): non-positive
durations become one nanosecond before the log transform. -/
def clampPos (l : List Int) : List Int :=
  l.map (fun v => if v ≤ 0 then 1 else v)

/-- The eight density glyphs (result.go line 195). -/
def sparkChars : List Char := ['▁', '▂', '▃', '▄', '▅', '▆', '▇', '█']

/-- `int(x)` applied to a nonnegative float: truncation toward zero,
modelled exactly on rationals. -/
def ratTrunc (x : ℚ) : Int := x.num.tdiv (x.den : Int)

/-- The unclamped bucket index of one sample (result.go lines 168-176):
clamp the transformed value into `[lmin, lmax]`, scale the ratio to
`[0, bins-1]`, truncate. -/
def rawBinIdx (lf : Int → ℚ) (lmin lmax : ℚ) (bins : Nat) (d : Int) : Int :=
  ratTrunc ((min (max (lf d) lmin) lmax - lmin) / (lmax - lmin)
    * ((bins : ℚ) - 1))

/-- The bucket index of one sample (result.go lines 167-183): the truncated
scaled index clamped into `[0, bins-1]`. -/
def binIdx (lf : Int → ℚ) (lmin lmax : ℚ) (bins : Nat) (d : Int) : Nat :=
  (min (max (rawBinIdx lf lmin lmax bins d) 0) ((bins : Int) - 1)).toNat

/-- The `counts` array of `sparkline` (result.go lines 166-184):
`counts[i]` is the number of samples falling in bucket `i`. -/
def sparkCounts (lf : Int → ℚ) (s : List Int) (lmin lmax : ℚ) (bins : Nat) :
    List Nat :=
  (List.range bins).map
    (fun i => (s.filter (fun d => binIdx lf lmin lmax bins d = i)).length)

/-- One glyph (result.go lines 197-206):
`level := int(math.Round((c/maxCnt)*7))` clamped into `[0,7]`;
`Round` on the nonnegative argument is `⌊7c/maxCnt + 1/2⌋ = (14c+maxCnt)/(2·maxCnt)`. -/
def sparkGlyph (maxCnt c : Nat) : Char :=
  let level := (14 * c + maxCnt) / (2 * maxCnt)
  sparkChars.getD (min level 7) '█'

/-- The working list of `sparkline` (result.go lines 148-155): the sorted
copy of the samples with non-positive durations clamped to 1ns. -/
def sparkSorted (samples : List Int) : List Int := clampPos (sortAsc samples)

/-- `lo := quantileDur(s, 0.01)` (result.go line 157). -/
def sparkLo (samples : List Int) : Int := quantileDur (sparkSorted samples) 1 100

/-- `hi := quantileDur(s, 0.99)` (result.go line 158). -/
def sparkHi (samples : List Int) : Int :=
  quantileDur (sparkSorted samples) 99 100

/-- `sparkline` (result.go lines 143-209).  `lf` abstracts
`math.Log(float64(d))`; the returned triple is (min shown duration,
max shown duration, glyph string as a list of characters). -/
def sparkline (lf : Int → ℚ) (samples : List Int) (bins : Nat) :
    Int × Int × List Char :=
  if samples = [] ∨ bins = 0 then (0, 0, [])
  else if sparkHi samples ≤ sparkLo samples then
    ((sparkSorted samples).getD 0 0,
     (sparkSorted samples).getD ((sparkSorted samples).length - 1) 0,
     List.replicate bins '█')
  else if (sparkCounts lf (sparkSorted samples) (lf (sparkLo samples))
      (lf (sparkHi samples)) bins).foldl max 0 = 0 then
    ((sparkSorted samples).getD 0 0,
     (sparkSorted samples).getD ((sparkSorted samples).length - 1) 0, [])
  else
    ((sparkSorted samples).getD 0 0,
     (sparkSorted samples).getD ((sparkSorted samples).length - 1) 0,
     (sparkCounts lf (sparkSorted samples) (lf (sparkLo samples))
        (lf (sparkHi samples)) bins).map
       (sparkGlyph ((sparkCounts lf (sparkSorted samples) (lf (sparkLo samples))
          (lf (sparkHi samples)) bins).foldl max 0)))

/-! ### Workloads (workloads.go)

Each worker iteration's database outcome is an oracle value; a workload run
function folds the events produced by all workers into a fresh `Result` and
finalizes it, exactly following the control flow of the Go run functions.
The SQL text and dialect branching (`?` vs `$1`) are resolved at
construction time in the source and do not affect the measured control
flow, so they are not part of the event model; the issued range-query
arguments are modelled separately by `rangeIterQuery`. -/

/-- Outcome of one single-operation iteration (point-select, one range scan,
update, delete): the operation fails, or succeeds with a measured latency. -/
inductive OpRes where
  | fail
  | ok (lat : Int)
deriving DecidableEq

/-- Events of one iteration (workloads.go lines 112-119 for select, and the
analogous loops of range/update/delete): a failure bumps the error count and
the loop continues; a success records one latency sample. -/
def opEvents : OpRes → List Event
  | OpRes.fail => [Event.err]
  | OpRes.ok d => [Event.lat d]

/-- Events of one worker: its iterations in order, until the shared deadline
ends the loop (the list is the finite sequence of iterations the worker ran). -/
def workerEvents (iters : List OpRes) : List Event :=
  iters.flatMap opEvents

/-- `selectWorkload` run function (workloads.go lines 84-125): short-circuit
on an empty key snapshot, then a one-time prepare that on failure counts one
error, then the worker pool. -/
def selectWorkload (keys : List String) (prepFail : Bool)
    (workers : List (List OpRes)) (conc : Nat) (dur : Int) : Result :=
  let res := newResult "select" conc dur
  if keys.length = 0 then finalize res
  else if prepFail then finalize (applyEvent res Event.err)
  else finalize (applyEvents res (workers.flatMap workerEvents))

/-- `updateWorkload` run function (workloads.go lines 194-234). -/
def updateWorkload (keys : List String) (prepFail : Bool)
    (workers : List (List OpRes)) (conc : Nat) (dur : Int) : Result :=
  let res := newResult "update" conc dur
  if keys.length = 0 then finalize res
  else if prepFail then finalize (applyEvent res Event.err)
  else finalize (applyEvents res (workers.flatMap workerEvents))

/-- `deleteWorkload` run function (workloads.go lines 242-282). -/
def deleteWorkload (keys : List String) (prepFail : Bool)
    (workers : List (List OpRes)) (conc : Nat) (dur : Int) : Result :=
  let res := newResult "delete" conc dur
  if keys.length = 0 then finalize res
  else if prepFail then finalize (applyEvent res Event.err)
  else finalize (applyEvents res (workers.flatMap workerEvents))

/-- One range-workload iteration: the two random draws (as indices into the
snapshot) and the scan outcome. -/
structure RangeIter where
  di : Nat
  dj : Nat
  res : OpRes
deriving DecidableEq

/-- `keys[rnd.Intn(len(keys))]`: a draw is an index into the snapshot. -/
def drawKey (keys : List String) (i : Nat) : String :=
  keys.getD (i % keys.length) ""

/-- The bound normalization of the range workload (workloads.go lines
163-166): `lo, hi := a, b; if lo > hi { lo, hi = hi, lo }`. -/
def rangeBounds (a b : String) : String × String :=
  if b < a then (b, a) else (a, b)

/-- The arguments `(lo, hi, limit)` issued to the range statement
(workloads.go line 169) by one iteration. -/
def rangeIterQuery (keys : List String) (limit : Nat) (it : RangeIter) :
    String × String × Nat :=
  let p := rangeBounds (drawKey keys it.di) (drawKey keys it.dj)
  (p.1, p.2, limit)

/-- `rangeWorkload` run function (workloads.go lines 133-186): short-circuit
when fewer than two snapshot keys exist. -/
def rangeWorkload (keys : List String) (prepFail : Bool)
    (workers : List (List RangeIter)) (conc : Nat) (dur : Int) : Result :=
  let res := newResult "range" conc dur
  if keys.length < 2 then finalize res
  else if prepFail then finalize (applyEvent res Event.err)
  else
    finalize (applyEvents res
      (workers.flatMap (fun w => w.flatMap (fun it => opEvents it.res))))

/-- Outcome of one write inside an insert batch: identifier generation
failure, exec failure, or success with a measured latency. -/
inductive WriteRes where
  | genFail
  | execFail
  | ok (lat : Int)
deriving DecidableEq

/-- Events of one batched write (workloads.go lines 54-68): generator or
exec failure counts one error and the batch loop continues; success records
one latency sample. -/
def writeEvents : WriteRes → List Event
  | WriteRes.genFail => [Event.err]
  | WriteRes.execFail => [Event.err]
  | WriteRes.ok d => [Event.lat d]

/-- One iteration of an insert worker (workloads.go lines 43-70): begin a
transaction, prepare the statement, run the batch.  `writes` holds the
outcome of each of the `batch` writes of the iteration. -/
structure InsertIter where
  beginFail : Bool
  prepFail : Bool
  writes : List WriteRes
deriving DecidableEq

/-- Events of one insert iteration: a begin failure counts one error and
skips the iteration (line 45); a prepare failure is logged, the transaction
rolled back, and the iteration skipped without touching the error count
(lines 48-52); otherwise every write of the batch contributes its events. -/
def insertIterEvents (it : InsertIter) : List Event :=
  if it.beginFail then [Event.err]
  else if it.prepFail then []
  else it.writes.flatMap writeEvents

/-- One insert worker: generator construction outcome (workloads.go lines
31-35) and the iterations it ran. -/
structure InsertWorker where
  genFail : Bool
  iters : List InsertIter
deriving DecidableEq

/-- Events of one insert worker: a generator-construction failure counts one
error and the worker exits; otherwise its iterations in order. -/
def insertWorkerEvents (w : InsertWorker) : List Event :=
  if w.genFail then [Event.err] else w.iters.flatMap insertIterEvents

/-- `insertWorkload` run function (workloads.go lines 22-76). -/
def insertWorkload (workers : List InsertWorker) (conc : Nat) (dur : Int) :
    Result :=
  finalize (applyEvents (newResult "insert" conc dur)
    (workers.flatMap insertWorkerEvents))

/-! ### Keyspace snapshot and runner (workloads.go / runner.go) -/

/-- `ORDER BY k DESC`: descending string sort of the table's keys. -/
def sortDesc (l : List String) : List String := List.insertionSort (· ≥ ·) l

/-- `FetchKeySnapshot` (workloads.go lines 284-309) under a successful
query: the result set of `SELECT k FROM kv ORDER BY k DESC LIMIT n` over a
table holding the keys `table`, with the empty-snapshot guard. -/
def FetchKeySnapshot (table : List String) (n : Nat) :
    Except String (List String) :=
  let keys := (sortDesc table).take n
  if keys = [] then Except.error "snapshot is empty: no keys fetched"
  else Except.ok keys

/-- `Config` (runner.go lines 13-20). -/
structure Config where
  Engine : String
  DSN : String
  Concurrency : Nat
  Warmup : Int
  Duration : Int
  TxBatch : Nat
deriving DecidableEq

/-- `initSchema` (runner.go lines 76-90): unsupported engine names fail; a
supported engine executes the embedded DDL, whose outcome is the oracle
`execFail`. -/
def initSchema (engine : String) (execFail : Bool) : Except String Unit :=
  if engine = "pgx" ∨ engine = "sqlite" ∨ engine = "chai" then
    (if execFail then Except.error "schema exec failed" else Except.ok ())
  else Except.error ("unsupported engine: " ++ engine)

/-- `runPhase` (runner.go lines 22-27): run the warmup pass (discarded) when
`warmup > 0`, then the measured pass. -/
def runPhase {ε : Type} (wf : ε → Result) (warmupPos : Bool)
    (warmEnv mainEnv : ε) : Result :=
  if warmupPos then (fun _warm => wf mainEnv) (wf warmEnv) else wf mainEnv

/-- The oracle outcomes of one whole run: connection open, schema exec, the
table contents at snapshot time, and per-workload worker outcomes for the
warmup and measured passes. -/
structure RunEnv where
  openFail : Bool
  schemaExecFail : Bool
  tableKeys : List String
  insertWarm : List InsertWorker
  insertMain : List InsertWorker
  selPrepWarm : Bool
  selWarm : List (List OpRes)
  selPrepMain : Bool
  selMain : List (List OpRes)
  rngPrepWarm : Bool
  rngWarm : List (List RangeIter)
  rngPrepMain : Bool
  rngMain : List (List RangeIter)
  updPrepWarm : Bool
  updWarm : List (List OpRes)
  updPrepMain : Bool
  updMain : List (List OpRes)
  delPrepWarm : Bool
  delWarm : List (List OpRes)
  delPrepMain : Bool
  delMain : List (List OpRes)
deriving DecidableEq

/-- `Run` (runner.go lines 29-74): open the connection, initialize the
schema, fetch the 2048-key snapshot — each failure aborts the run — then
execute the five workload phases in order and return their measurements. -/
def Run (cfg : Config) (env : RunEnv) : Except String (List Result) :=
  if env.openFail then Except.error "open failed"
  else
    match initSchema cfg.Engine env.schemaExecFail with
    | Except.error e => Except.error e
    | Except.ok _ =>
      match FetchKeySnapshot env.tableKeys 2048 with
      | Except.error e => Except.error e
      | Except.ok prefetch =>
        let wp := decide (0 < cfg.Warmup)
        Except.ok
          [ runPhase (fun w => insertWorkload w cfg.Concurrency cfg.Duration)
              wp env.insertWarm env.insertMain
          , runPhase
              (fun e => selectWorkload prefetch e.1 e.2 cfg.Concurrency cfg.Duration)
              wp (env.selPrepWarm, env.selWarm) (env.selPrepMain, env.selMain)
          , runPhase
              (fun e => rangeWorkload prefetch e.1 e.2 cfg.Concurrency cfg.Duration)
              wp (env.rngPrepWarm, env.rngWarm) (env.rngPrepMain, env.rngMain)
          , runPhase
              (fun e => updateWorkload prefetch e.1 e.2 cfg.Concurrency cfg.Duration)
              wp (env.updPrepWarm, env.updWarm) (env.updPrepMain, env.updMain)
          , runPhase
              (fun e => deleteWorkload prefetch e.1 e.2 cfg.Concurrency cfg.Duration)
              wp (env.delPrepWarm, env.delWarm) (env.delPrepMain, env.delMain) ]

/-! ### Deadline observation model

The shared deadline (`ctx, cancel := context.WithTimeout(ctx, dur)`) is a
monotone boolean signal sampled cooperatively.  Time advances by one unit
per issued operation; a worker loop checks the signal at the top of each
iteration (`select { case <-ctx.Done(): return; default: }`) and issues the
iteration's operations at consecutive instants.  `loopTrace` is the list of
operation start times of a single-operation worker loop (select/range/
update/delete); `insertLoopTrace` is that of an insert worker, which issues
`batch` writes per checked iteration. -/

/-- The signal never goes back from fired to unfired. -/
def sigMono (sig : Nat → Bool) : Prop :=
  ∀ m n, m ≤ n → sig m = true → sig n = true

/-- Operation start times of a single-operation worker loop running at most
`fuel` iterations, starting its first check at time `t`. -/
def loopTrace (sig : Nat → Bool) : Nat → Nat → List Nat
  | 0, _ => []
  | fuel + 1, t =>
    if sig t then [] else t :: loopTrace sig fuel (t + 1)

/-- Write start times of an insert worker loop: one deadline check per
iteration, then the whole batch of `batch` writes at consecutive instants. -/
def insertLoopTrace (sig : Nat → Bool) (batch : Nat) : Nat → Nat → List Nat
  | 0, _ => []
  | fuel + 1, t =>
    if sig t then []
    else (List.range batch).map (t + ·) ++ insertLoopTrace sig batch fuel (t + batch)

/-! ### Concrete inputs used by witnesses and counterexamples -/

/-- An insert iteration whose transaction prepares unsuccessfully. -/
def prepFailIter : InsertIter :=
  { beginFail := false, prepFail := true, writes := [WriteRes.ok 5] }

/-- A deadline signal that fires between the first and second write of a
two-write batch started at time 0. -/
def lateSig : Nat → Bool := fun n => decide (1 ≤ n)

/-- A configuration with a supported engine. -/
def cfg0 : Config :=
  { Engine := "chai", DSN := "file:./data/chai.db", Concurrency := 2,
    Warmup := 0, Duration := 1000, TxBatch := 1 }

/-- A run environment where setup succeeds over a one-row table and every
workload runs zero iterations. -/
def env0 : RunEnv :=
  { openFail := false, schemaExecFail := false, tableKeys := ["k"],
    insertWarm := [], insertMain := [],
    selPrepWarm := false, selWarm := [], selPrepMain := false, selMain := [],
    rngPrepWarm := false, rngWarm := [], rngPrepMain := false, rngMain := [],
    updPrepWarm := false, updWarm := [], updPrepMain := false, updMain := [],
    delPrepWarm := false, delWarm := [], delPrepMain := false, delMain := [] }

/-- The five zero-activity measurements produced by `Run cfg0 env0`. -/
def results0 : List Result :=
  [ { Workload := "insert", Concurrency := 2, Duration := 1000,
      Ops := 0, Errors := 0, P50 := 0, P95 := 0, P99 := 0, hist := [] }
  , { Workload := "select", Concurrency := 2, Duration := 1000,
      Ops := 0, Errors := 0, P50 := 0, P95 := 0, P99 := 0, hist := [] }
  , { Workload := "range", Concurrency := 2, Duration := 1000,
      Ops := 0, Errors := 0, P50 := 0, P95 := 0, P99 := 0, hist := [] }
  , { Workload := "update", Concurrency := 2, Duration := 1000,
      Ops := 0, Errors := 0, P50 := 0, P95 := 0, P99 := 0, hist := [] }
  , { Workload := "delete", Concurrency := 2, Duration := 1000,
      Ops := 0, Errors := 0, P50 := 0, P95 := 0, P99 := 0, hist := [] } ]

/-! ### Helper lemmas -/

theorem sortAsc_sorted (l : List Int) : (sortAsc l).Sorted (· ≤ ·) :=
  List.sorted_insertionSort _ l

theorem sortAsc_perm (l : List Int) : (sortAsc l).Perm l :=
  List.perm_insertionSort _ l

theorem sortAsc_length (l : List Int) : (sortAsc l).length = l.length :=
  (sortAsc_perm l).length_eq

theorem sortSlice_eq_sortAsc (l : List Int) : sortSlice l = sortAsc l := by
  unfold sortSlice sortAsc
  have hf : (fun (a b : Int) => !decide (b < a))
      = (fun (a b : Int) => decide (a ≤ b)) := by
    funext a b
    rw [← decide_not]
    exact decide_eq_decide.mpr (by omega)
  rw [hf]
  exact List.mergeSort_eq_insertionSort (r := (· ≤ ·)) l

theorem qIdx_le_sub_one (n qn qd : Nat) (hle : qn ≤ qd) (hd : 0 < qd) :
    qIdx n qn qd ≤ n - 1 := by
  unfold qIdx
  calc ((n - 1) * qn) / qd ≤ ((n - 1) * qd) / qd :=
        Nat.div_le_div_right (Nat.mul_le_mul_left _ hle)
    _ = n - 1 := Nat.mul_div_cancel _ hd

theorem qIdx_lt (n qn qd : Nat) (hn : 0 < n) (hle : qn ≤ qd) (hd : 0 < qd) :
    qIdx n qn qd < n :=
  Nat.lt_of_le_of_lt (qIdx_le_sub_one n qn qd hle hd) (by omega)

theorem qIdx_mono_num (n qd : Nat) {qn qn' : Nat} (h : qn ≤ qn') :
    qIdx n qn qd ≤ qIdx n qn' qd :=
  Nat.div_le_div_right (Nat.mul_le_mul_left _ h)

theorem qIdx_eq_floor (n qn qd : Nat) (hn : 1 ≤ n) (hd : 0 < qd) :
    qIdx n qn qd = floorIdx n qn qd := by
  unfold floorIdx
  have hm : ((n : ℚ) - 1) = ((n - 1 : Nat) : ℚ) := by
    push_cast [Nat.cast_sub hn]; ring
  rw [hm]
  have h1 : ((n - 1 : Nat) : ℚ) * ((qn : ℚ) / (qd : ℚ))
      = (((n - 1) * qn : ℕ) : ℚ) / ((qd : ℕ) : ℚ) := by
    push_cast; ring
  rw [h1]
  have h2 := Rat.floor_intCast_div_natCast (((n - 1) * qn : ℕ) : ℤ) qd
  rw [show ((((n - 1) * qn : ℕ) : ℤ) : ℚ) = (((n - 1) * qn : ℕ) : ℚ) by
    push_cast; ring] at h2
  rw [h2, qIdx, ← Int.natCast_div, Int.toNat_natCast]

theorem applyEvents_keeps_percentiles (r : Result) (evs : List Event) :
    (applyEvents r evs).P50 = r.P50 ∧ (applyEvents r evs).P95 = r.P95 ∧
    (applyEvents r evs).P99 = r.P99 := by
  induction evs generalizing r with
  | nil => exact ⟨rfl, rfl, rfl⟩
  | cons e evs ih =>
    have h := ih (applyEvent r e)
    cases e <;> simpa [applyEvents, applyEvent] using h

theorem applyEvents_fields (r : Result) (evs : List Event) :
    (applyEvents r evs).Workload = r.Workload ∧
    (applyEvents r evs).Concurrency = r.Concurrency ∧
    (applyEvents r evs).Duration = r.Duration := by
  induction evs generalizing r with
  | nil => exact ⟨rfl, rfl, rfl⟩
  | cons e evs ih =>
    have h := ih (applyEvent r e)
    cases e <;> simpa [applyEvents, applyEvent] using h

theorem applyEvents_totals (r : Result) (evs : List Event) :
    (applyEvents r evs).Errors = r.Errors + errCount evs ∧
    (applyEvents r evs).hist = r.hist ++ latSamples evs ∧
    (applyEvents r evs).Ops = r.Ops + (latSamples evs).length := by
  induction evs generalizing r with
  | nil => simp [applyEvents, errCount, latSamples]
  | cons e evs ih =>
    cases e with
    | lat d =>
      obtain ⟨h1, h2, h3⟩ := ih (applyEvent r (Event.lat d))
      have e1 : applyEvents r (Event.lat d :: evs)
          = applyEvents (applyEvent r (Event.lat d)) evs := rfl
      refine ⟨?_, ?_, ?_⟩
      · rw [e1, h1]; simp [applyEvent, errCount]
      · rw [e1, h2]; simp [applyEvent, latSamples]
      · rw [e1, h3]; simp [applyEvent, latSamples]; omega
    | err =>
      obtain ⟨h1, h2, h3⟩ := ih (applyEvent r Event.err)
      have e1 : applyEvents r (Event.err :: evs)
          = applyEvents (applyEvent r Event.err) evs := rfl
      refine ⟨?_, ?_, ?_⟩
      · rw [e1, h1]; simp [applyEvent, errCount]; omega
      · rw [e1, h2]; simp [applyEvent, latSamples]
      · rw [e1, h3]; simp [applyEvent, latSamples]

theorem quantile_eq_get (samples : List Int) (hne : samples ≠ []) (qn qd : Nat)
    (hle : qn ≤ qd) (hd : 0 < qd)
    (h : floorIdx samples.length qn qd < (sortAsc samples).length) :
    quantile samples qn qd
      = (sortAsc samples).get ⟨floorIdx samples.length qn qd, h⟩ := by
  have hn : 0 < samples.length := List.length_pos.mpr hne
  unfold quantile
  rw [if_neg hne, qIdx_eq_floor _ _ _ hn hd]
  exact List.getD_eq_get _ _ _

theorem floorIdx_lt_sortAsc (samples : List Int) (hne : samples ≠ [])
    (qn qd : Nat) (hle : qn ≤ qd) (hd : 0 < qd) :
    floorIdx samples.length qn qd < (sortAsc samples).length := by
  have hn : 0 < samples.length := List.length_pos.mpr hne
  rw [sortAsc_length, ← qIdx_eq_floor _ _ _ hn hd]
  exact qIdx_lt _ _ _ hn hle hd

theorem quantile_mono (samples : List Int) (hne : samples ≠ [])
    {qn qn' qd : Nat} (h : qn ≤ qn') (h2 : qn' ≤ qd) (hd : 0 < qd) :
    quantile samples qn qd ≤ quantile samples qn' qd := by
  have hn : 0 < samples.length := List.length_pos.mpr hne
  have ha : qIdx samples.length qn qd < (sortAsc samples).length := by
    rw [sortAsc_length]; exact qIdx_lt _ _ _ hn (le_trans h h2) hd
  have hb : qIdx samples.length qn' qd < (sortAsc samples).length := by
    rw [sortAsc_length]; exact qIdx_lt _ _ _ hn h2 hd
  unfold quantile
  rw [if_neg hne, if_neg hne, List.getD_eq_get _ _ ha, List.getD_eq_get _ _ hb]
  exact (sortAsc_sorted samples).rel_get_of_le
    (Fin.mk_le_mk.mpr (qIdx_mono_num _ _ h))

/-! ### Claim theorems -/

/-- C1: in a measurement built from any event stream, the percentile fields
are zero before finalization; after finalization on a non-empty sample set,
each percentile equals the sorted sample at index `⌊(n-1)·q⌋` for its
quantile, and P50 ≤ P95 ≤ P99. -/
theorem percentiles_correct (name : String) (conc : Nat) (dur : Int)
    (evs : List Event) (r : Result)
    (hr : r = applyEvents (newResult name conc dur) evs) :
    (r.P50 = 0 ∧ r.P95 = 0 ∧ r.P99 = 0) ∧
    (r.hist ≠ [] →
      ∃ (h50 : floorIdx r.hist.length 50 100 < (sortAsc r.hist).length)
        (h95 : floorIdx r.hist.length 95 100 < (sortAsc r.hist).length)
        (h99 : floorIdx r.hist.length 99 100 < (sortAsc r.hist).length),
        (finalize r).P50
            = (sortAsc r.hist).get ⟨floorIdx r.hist.length 50 100, h50⟩ ∧
        (finalize r).P95
            = (sortAsc r.hist).get ⟨floorIdx r.hist.length 95 100, h95⟩ ∧
        (finalize r).P99
            = (sortAsc r.hist).get ⟨floorIdx r.hist.length 99 100, h99⟩ ∧
        (finalize r).P50 ≤ (finalize r).P95 ∧
        (finalize r).P95 ≤ (finalize r).P99) := by
  constructor
  · rw [hr]
    obtain ⟨h1, h2, h3⟩ :=
      applyEvents_keeps_percentiles (newResult name conc dur) evs
    exact ⟨h1, h2, h3⟩
  · intro hne
    have h50 := floorIdx_lt_sortAsc r.hist hne 50 100 (by norm_num) (by norm_num)
    have h95 := floorIdx_lt_sortAsc r.hist hne 95 100 (by norm_num) (by norm_num)
    have h99 := floorIdx_lt_sortAsc r.hist hne 99 100 (by norm_num) (by norm_num)
    refine ⟨h50, h95, h99, ?_, ?_, ?_, ?_, ?_⟩
    · exact quantile_eq_get r.hist hne 50 100 (by norm_num) (by norm_num) h50
    · exact quantile_eq_get r.hist hne 95 100 (by norm_num) (by norm_num) h95
    · exact quantile_eq_get r.hist hne 99 100 (by norm_num) (by norm_num) h99
    · exact quantile_mono r.hist hne (by norm_num) (by norm_num) (by norm_num)
    · exact quantile_mono r.hist hne (by norm_num) (by norm_num) (by norm_num)

/-- Witness for C1 at a concrete event stream. -/
theorem percentiles_correct_witness :
    (finalize (applyEvents (newResult "w" 1 1)
        [Event.lat 3, Event.lat 1, Event.err])).P50 ≤
      (finalize (applyEvents (newResult "w" 1 1)
        [Event.lat 3, Event.lat 1, Event.err])).P95 := by
  obtain ⟨-, h⟩ := percentiles_correct "w" 1 1
    [Event.lat 3, Event.lat 1, Event.err] _ rfl
  obtain ⟨h50, h95, h99, -, -, -, hle, -⟩ := h (by decide)
  exact hle

/-- C3: a keyspace snapshot of up to `limit` keys over a non-empty table of
distinct keys succeeds with at most `limit` keys in strictly descending key
order; over an empty table it fails with the designated empty-snapshot
error; and it never returns an empty key list with success. -/
theorem fetchKeySnapshot_spec (table : List String) (n : Nat)
    (hnd : table.Nodup) :
    (table ≠ [] → 0 < n →
      ∃ ks, FetchKeySnapshot table n = Except.ok ks ∧ ks ≠ [] ∧
        ks.length ≤ n ∧ ks.Pairwise (· > ·)) ∧
    (table = [] → FetchKeySnapshot table n
        = Except.error "snapshot is empty: no keys fetched") ∧
    (∀ ks, FetchKeySnapshot table n = Except.ok ks → ks ≠ []) := by
  haveI ht : IsTotal String (· ≥ ·) := ⟨fun a b => le_total b a⟩
  haveI htr : IsTrans String (· ≥ ·) := ⟨fun _ _ _ h1 h2 => le_trans h2 h1⟩
  have hperm : (sortDesc table).Perm table := List.perm_insertionSort _ _
  refine ⟨?_, ?_, ?_⟩
  · intro hne hn
    have hlen : (sortDesc table).length = table.length := hperm.length_eq
    have hpos : 0 < table.length := List.length_pos.mpr hne
    have htake : ((sortDesc table).take n).length = min n table.length := by
      rw [List.length_take, hlen]
    have hkne : (sortDesc table).take n ≠ [] := by
      apply List.ne_nil_of_length_pos
      rw [htake]
      omega
    refine ⟨(sortDesc table).take n, ?_, hkne, ?_, ?_⟩
    · simp only [FetchKeySnapshot]
      rw [if_neg hkne]
    · rw [htake]; exact min_le_left _ _
    · have hsorted : (sortDesc table).Pairwise (· ≥ ·) :=
        List.sorted_insertionSort _ _

      have hnd2 : ((sortDesc table).take n).Nodup :=
        (hperm.nodup_iff.mpr hnd).sublist (List.take_sublist _ _)
      have hge : ((sortDesc table).take n).Pairwise (· ≥ ·) :=
        hsorted.sublist (List.take_sublist _ _)
      exact (hge.and hnd2).imp (fun hab => lt_of_le_of_ne hab.1 hab.2.symm)
  · intro he
    subst he
    simp [FetchKeySnapshot, sortDesc, List.insertionSort]
  · intro ks h
    simp only [FetchKeySnapshot] at h
    by_cases hk : (sortDesc table).take n = []
    · rw [if_pos hk] at h
      cases h
    · rw [if_neg hk] at h
      cases h
      exact hk

/-- Witness for C3 at a concrete two-row table. -/
theorem fetchKeySnapshot_spec_witness :
    ∃ ks, FetchKeySnapshot ["b", "a"] 2 = Except.ok ks ∧ ks ≠ [] ∧
      ks.length ≤ 2 ∧ ks.Pairwise (· > ·) :=
  (fetchKeySnapshot_spec ["b", "a"] 2 (by decide)).1 (by decide) (by decide)

/-- C5 (amended): inside an insert batch, a write whose identifier
generation or exec fails contributes exactly one error and no latency
sample, and the batch continues within the same transaction; a begin
failure ends the iteration and is counted once; a prepare failure ends the
iteration (rollback) but is only logged — the error count is not
incremented. -/
theorem insert_batch_error_accounting (it : InsertIter) :
    (it.beginFail = true →
      insertIterEvents it = [Event.err] ∧
      errCount (insertIterEvents it) = 1 ∧
      latSamples (insertIterEvents it) = []) ∧
    (it.beginFail = false → it.prepFail = true →
      insertIterEvents it = [] ∧ errCount (insertIterEvents it) = 0) ∧
    (it.beginFail = false → it.prepFail = false →
      ∀ ws1 w ws2, it.writes = ws1 ++ w :: ws2 →
        insertIterEvents it
          = ws1.flatMap writeEvents
              ++ (writeEvents w ++ ws2.flatMap writeEvents) ∧
        ((w = WriteRes.genFail ∨ w = WriteRes.execFail) →
          errCount (writeEvents w) = 1 ∧ latSamples (writeEvents w) = []) ∧
        (∀ d, w = WriteRes.ok d → writeEvents w = [Event.lat d])) := by
  refine ⟨?_, ?_, ?_⟩
  · intro hb
    simp [insertIterEvents, hb, errCount, latSamples]
  · intro hb hp
    simp [insertIterEvents, hb, hp, errCount]
  · intro hb hp ws1 w ws2 hw
    refine ⟨?_, ?_, ?_⟩
    · simp [insertIterEvents, hb, hp, hw]
    · rintro (rfl | rfl) <;> simp [writeEvents, errCount, latSamples]
    · rintro d rfl
      rfl

/-- Witness for C5 at a concrete prepare-failure iteration. -/
theorem insert_batch_error_accounting_witness :
    insertIterEvents prepFailIter = [] ∧
    errCount (insertIterEvents prepFailIter) = 0 :=
  (insert_batch_error_accounting prepFailIter).2.1 rfl rfl

/-- C5 counterexample: the claim says a prepare failure is counted once as
an error, but the code only logs it — the iteration contributes zero
events and zero errors. -/
theorem insert_prepare_failure_not_counted :
    insertIterEvents prepFailIter = [] ∧
    ¬ errCount (insertIterEvents prepFailIter) = 1 := by
  decide

/-- C9 (amended): in the single-operation workloads (point-select, range,
update, delete) every operation starts at an instant where the worker's
top-of-loop check has just observed the deadline signal unfired; in the
insert workload the check happens once per batch iteration, so every write
starts within `batch` instants of a check that observed the signal unfired
(but not necessarily with the signal still unfired). -/
theorem cancellation_checked_per_iteration :
    (∀ (sig : Nat → Bool) (fuel t τ : Nat),
      τ ∈ loopTrace sig fuel t → sig τ = false) ∧
    (∀ (sig : Nat → Bool) (batch fuel t τ : Nat),
      τ ∈ insertLoopTrace sig batch fuel t →
        ∃ t0, t0 ≤ τ ∧ τ < t0 + batch ∧ sig t0 = false) := by
  constructor
  · intro sig fuel
    induction fuel with
    | zero => intro t τ h; cases h
    | succ fuel ih =>
      intro t τ h
      by_cases hs : sig t
      · rw [loopTrace, if_pos hs] at h
        cases h
      · rw [loopTrace, if_neg hs] at h
        rcases h with _ | h
        · exact Bool.eq_false_iff.mpr hs
        · exact ih (t + 1) τ (by assumption)
  · intro sig batch fuel
    induction fuel with
    | zero => intro t τ h; cases h
    | succ fuel ih =>
      intro t τ h
      by_cases hs : sig t
      · rw [insertLoopTrace, if_pos hs] at h
        cases h
      · rw [insertLoopTrace, if_neg hs] at h
        rcases List.mem_append.mp h with h1 | h2
        · obtain ⟨i, hi, rfl⟩ := List.mem_map.mp h1
          have hib : i < batch := List.mem_range.mp hi
          exact ⟨t, Nat.le_add_right _ _, by omega,
            Bool.eq_false_iff.mpr hs⟩
        · exact ih (t + batch) τ h2

/-- Witness for C9 at a concrete unfired signal. -/
theorem cancellation_checked_per_iteration_witness :
    (fun _ : Nat => false) 0 = false ∧
    ∃ t0, t0 ≤ 0 ∧ 0 < t0 + 2 ∧ (fun _ : Nat => false) t0 = false :=
  ⟨cancellation_checked_per_iteration.1 (fun _ => false) 1 0 0 (by decide),
   cancellation_checked_per_iteration.2 (fun _ => false) 2 1 0 0 (by decide)⟩

/-- C9 counterexample: with a two-write batch started at instant 0 and a
monotone deadline signal that fires at instant 1, the second write of the
batch starts after the signal has fired — the insert batch loop has no
cancellation check before each individually timed write. -/
theorem insert_batch_write_after_deadline :
    sigMono lateSig ∧ 1 ∈ insertLoopTrace lateSig 2 1 0 ∧
    lateSig 1 = true := by
  refine ⟨?_, by decide, by decide⟩
  intro m n hmn hm
  simp only [lateSig, decide_eq_true_eq] at hm ⊢
  omega

theorem finalize_Workload (r : Result) : (finalize r).Workload = r.Workload :=
  rfl

theorem insertWorkload_Workload (w : List InsertWorker) (c : Nat) (d : Int) :
    (insertWorkload w c d).Workload = "insert" := by
  unfold insertWorkload
  rw [finalize_Workload]
  exact (applyEvents_fields _ _).1

theorem selectWorkload_Workload (keys : List String) (p : Bool)
    (w : List (List OpRes)) (c : Nat) (d : Int) :
    (selectWorkload keys p w c d).Workload = "select" := by
  unfold selectWorkload
  split_ifs with h1 h2
  · rfl
  · rfl
  · rw [finalize_Workload]
    exact (applyEvents_fields _ _).1

theorem rangeWorkload_Workload (keys : List String) (p : Bool)
    (w : List (List RangeIter)) (c : Nat) (d : Int) :
    (rangeWorkload keys p w c d).Workload = "range" := by
  unfold rangeWorkload
  split_ifs with h1 h2
  · rfl
  · rfl
  · rw [finalize_Workload]
    exact (applyEvents_fields _ _).1

theorem updateWorkload_Workload (keys : List String) (p : Bool)
    (w : List (List OpRes)) (c : Nat) (d : Int) :
    (updateWorkload keys p w c d).Workload = "update" := by
  unfold updateWorkload
  split_ifs with h1 h2
  · rfl
  · rfl
  · rw [finalize_Workload]
    exact (applyEvents_fields _ _).1

theorem deleteWorkload_Workload (keys : List String) (p : Bool)
    (w : List (List OpRes)) (c : Nat) (d : Int) :
    (deleteWorkload keys p w c d).Workload = "delete" := by
  unfold deleteWorkload
  split_ifs with h1 h2
  · rfl
  · rfl
  · rw [finalize_Workload]
    exact (applyEvents_fields _ _).1

theorem runPhase_eq {ε : Type} (wf : ε → Result) (wp : Bool)
    (warmEnv mainEnv : ε) : runPhase wf wp warmEnv mainEnv = wf mainEnv := by
  unfold runPhase
  split <;> rfl

/-- C2: `Run` returns measurements exactly when connection open, schema
initialization and keyspace-snapshot acquisition all succeed — whatever the
per-operation outcomes inside the workloads are — and in that case it
returns exactly five measurements, one per workload, in the order insert,
select, range, update, delete. -/
theorem run_aborts_only_on_setup_failure (cfg : Config) (env : RunEnv) :
    ((∃ rs, Run cfg env = Except.ok rs) ↔
      (env.openFail = false ∧
       (∃ u, initSchema cfg.Engine env.schemaExecFail = Except.ok u) ∧
       (∃ ks, FetchKeySnapshot env.tableKeys 2048 = Except.ok ks))) ∧
    (∀ rs, Run cfg env = Except.ok rs →
      rs.length = 5 ∧
      rs.map Result.Workload
        = ["insert", "select", "range", "update", "delete"]) := by
  constructor
  · constructor
    · rintro ⟨rs, hrs⟩
      unfold Run at hrs
      by_cases ho : env.openFail = true
      · rw [if_pos ho] at hrs
        cases hrs
      · rw [if_neg ho] at hrs
        cases hinit : initSchema cfg.Engine env.schemaExecFail with
        | error e =>
          rw [hinit] at hrs
          cases hrs
        | ok u =>
          rw [hinit] at hrs
          cases hsnap : FetchKeySnapshot env.tableKeys 2048 with
          | error e =>
            rw [hsnap] at hrs
            cases hrs
          | ok ks =>
            exact ⟨Bool.not_eq_true _ ▸ ho, ⟨u, rfl⟩, ⟨ks, rfl⟩⟩
    · rintro ⟨ho, ⟨u, hinit⟩, ⟨ks, hsnap⟩⟩
      unfold Run
      rw [if_neg (by simp [ho]), hinit, hsnap]
      exact ⟨_, rfl⟩
  · intro rs hrs
    unfold Run at hrs
    by_cases ho : env.openFail = true
    · rw [if_pos ho] at hrs
      cases hrs
    · rw [if_neg ho] at hrs
      cases hinit : initSchema cfg.Engine env.schemaExecFail with
      | error e =>
        rw [hinit] at hrs
        cases hrs
      | ok u =>
        rw [hinit] at hrs
        cases hsnap : FetchKeySnapshot env.tableKeys 2048 with
        | error e =>
          rw [hsnap] at hrs
          cases hrs
        | ok ks =>
          rw [hsnap] at hrs
          cases hrs
          constructor
          · rfl
          · simp only [List.map_cons, List.map_nil, runPhase_eq,
              insertWorkload_Workload, selectWorkload_Workload,
              rangeWorkload_Workload, updateWorkload_Workload,
              deleteWorkload_Workload]

/-- Witness for C2: a run over a supported engine and a one-row table
yields the five zero-activity measurements in workload order. -/
theorem run_aborts_only_on_setup_failure_witness :
    results0.length = 5 ∧
    results0.map Result.Workload
      = ["insert", "select", "range", "update", "delete"] :=
  (run_aborts_only_on_setup_failure cfg0 env0).2 results0 rfl

/-- C6: every range-select iteration issues its query with normalized
bounds: the first bound is ≤ the second, the two bounds are exactly the two
drawn keys, and in particular drawing `"key-0005"` then `"key-0002"`
queries with `("key-0002", "key-0005")`. -/
theorem range_query_bounds_normalized :
    (∀ a b : String, (rangeBounds a b).1 ≤ (rangeBounds a b).2 ∧
      (rangeBounds a b = (a, b) ∨ rangeBounds a b = (b, a))) ∧
    (∀ (keys : List String) (limit : Nat) (it : RangeIter),
      (rangeIterQuery keys limit it).1 ≤ (rangeIterQuery keys limit it).2.1) ∧
    rangeBounds "key-0005" "key-0002" = ("key-0002", "key-0005") := by
  have hb : ∀ a b : String, (rangeBounds a b).1 ≤ (rangeBounds a b).2 ∧
      (rangeBounds a b = (a, b) ∨ rangeBounds a b = (b, a)) := by
    intro a b
    by_cases h : b < a
    · constructor
      · simpa [rangeBounds, h] using le_of_lt h
      · right; simp [rangeBounds, h]
    · constructor
      · simpa [rangeBounds, h] using le_of_not_lt h
      · left; simp [rangeBounds, h]
  refine ⟨hb, ?_, ?_⟩
  · intro keys limit it
    exact (hb _ _).1
  · have h : ("key-0002" : String) < "key-0005" :=
      String.lt_iff_toList_lt.mpr (by decide)
    simp [rangeBounds, h]

/-- C7: on the empty sample set every percentile is zero and the sparkline
renderer returns no visual output together with zero min/max durations. -/
theorem empty_samples_zero_output (qn qd : Nat) (lf : Int → ℚ) (bins : Nat) :
    quantile [] qn qd = 0 ∧ sparkline lf [] bins = (0, 0, []) :=
  ⟨rfl, by simp [sparkline]⟩

/-- C10: the two duplicated quantile implementations — the `slices.Sort`
one of result.go and the `sort.Slice` one of the older variant — agree on
every sample list and every quantile. -/
theorem quantile_variants_agree (samples : List Int) (qn qd : Nat) :
    quantileOld samples qn qd = quantile samples qn qd := by
  unfold quantileOld quantile
  rw [sortSlice_eq_sortAsc]

/-- C4: a workload whose key snapshot is too small (empty for point-select,
update and delete; fewer than two keys for range-select) returns the
finalized zero-activity measurement — zero ops, zero errors, zero
percentiles — independent of any worker outcomes. -/
theorem workload_degenerate_short_circuit :
    (∀ (keys : List String) (prep : Bool) (workers : List (List OpRes))
        (conc : Nat) (dur : Int), keys.length = 0 →
      selectWorkload keys prep workers conc dur
          = finalize (newResult "select" conc dur) ∧
      updateWorkload keys prep workers conc dur
          = finalize (newResult "update" conc dur) ∧
      deleteWorkload keys prep workers conc dur
          = finalize (newResult "delete" conc dur)) ∧
    (∀ (keys : List String) (prep : Bool) (workers : List (List RangeIter))
        (conc : Nat) (dur : Int), keys.length < 2 →
      rangeWorkload keys prep workers conc dur
          = finalize (newResult "range" conc dur)) ∧
    (∀ (name : String) (conc : Nat) (dur : Int),
      (finalize (newResult name conc dur)).Ops = 0 ∧
      (finalize (newResult name conc dur)).Errors = 0 ∧
      (finalize (newResult name conc dur)).P50 = 0 ∧
      (finalize (newResult name conc dur)).P95 = 0 ∧
      (finalize (newResult name conc dur)).P99 = 0) := by
  refine ⟨?_, ?_, ?_⟩
  · intro keys prep workers conc dur hk
    exact ⟨by simp [selectWorkload, hk], by simp [updateWorkload, hk],
      by simp [deleteWorkload, hk]⟩
  · intro keys prep workers conc dur hk
    simp [rangeWorkload, hk]
  · intro name conc dur
    simp [finalize, newResult, quantile]

/-- Witness for C4 at concrete empty/one-key snapshots. -/
theorem workload_degenerate_short_circuit_witness :
    selectWorkload [] false [] 2 7 = finalize (newResult "select" 2 7) ∧
    rangeWorkload ["a"] false [] 2 7 = finalize (newResult "range" 2 7) :=
  ⟨(workload_degenerate_short_circuit.1 [] false [] 2 7 (by decide)).1,
   workload_degenerate_short_circuit.2.1 ["a"] false [] 2 7 (by decide)⟩

theorem quantileDur_eq_getD (s : List Int) (hne : s ≠ []) (qn qd : Nat)
    (h0 : qn ≠ 0) (h1 : ¬ qd ≤ qn) :
    quantileDur s qn qd = s.getD (qIdx s.length qn qd) 0 := by
  unfold quantileDur
  rw [if_neg hne, if_neg h0, if_neg h1]

theorem clampPos_pos (l : List Int) : ∀ d ∈ clampPos l, 1 ≤ d := by
  intro d hd
  rw [clampPos, List.mem_map] at hd
  obtain ⟨v, hv, rfl⟩ := hd
  split_ifs <;> omega

theorem sparkSorted_length (samples : List Int) :
    (sparkSorted samples).length = samples.length := by
  rw [sparkSorted, clampPos, List.length_map, sortAsc_length]

theorem sparkSorted_ne_nil {samples : List Int} (hne : samples ≠ []) :
    sparkSorted samples ≠ [] := by
  intro h
  have hl := sparkSorted_length samples
  rw [h] at hl
  exact hne (List.length_eq_zero.mp hl.symm)

theorem sparkSorted_sorted (samples : List Int) :
    (sparkSorted samples).Sorted (· ≤ ·) := by
  have h := sortAsc_sorted samples
  unfold sparkSorted clampPos
  refine List.Pairwise.map _ (fun a b hab => ?_) h
  dsimp only
  split_ifs <;> omega

theorem sparkLo_le_sparkHi {samples : List Int} (hne : samples ≠ []) :
    sparkLo samples ≤ sparkHi samples := by
  have hsne : sparkSorted samples ≠ [] := sparkSorted_ne_nil hne
  have hn : 0 < (sparkSorted samples).length := List.length_pos.mpr hsne
  have ha : qIdx (sparkSorted samples).length 1 100
      < (sparkSorted samples).length := qIdx_lt _ _ _ hn (by norm_num) (by norm_num)
  have hb : qIdx (sparkSorted samples).length 99 100
      < (sparkSorted samples).length := qIdx_lt _ _ _ hn (by norm_num) (by norm_num)
  rw [sparkLo, sparkHi,
    quantileDur_eq_getD _ hsne 1 100 (by norm_num) (by norm_num),
    quantileDur_eq_getD _ hsne 99 100 (by norm_num) (by norm_num),
    List.getD_eq_get _ _ ha, List.getD_eq_get _ _ hb]
  exact (sparkSorted_sorted samples).rel_get_of_le
    (Fin.mk_le_mk.mpr (qIdx_mono_num _ _ (by norm_num)))

theorem binIdx_lt (lf : Int → ℚ) (lmin lmax : ℚ) (bins : Nat) (d : Int)
    (hbins : 0 < bins) : binIdx lf lmin lmax bins d < bins := by
  unfold binIdx
  omega

theorem sparkCounts_length (lf : Int → ℚ) (s : List Int) (lmin lmax : ℚ)
    (bins : Nat) : (sparkCounts lf s lmin lmax bins).length = bins := by
  rw [sparkCounts, List.length_map, List.length_range]

theorem sparkCounts_get (lf : Int → ℚ) (s : List Int) (lmin lmax : ℚ)
    (bins : Nat) (i : Nat) (h : i < (sparkCounts lf s lmin lmax bins).length) :
    (sparkCounts lf s lmin lmax bins).get ⟨i, h⟩
      = (s.filter (fun d => binIdx lf lmin lmax bins d = i)).length := by
  simp [sparkCounts]

theorem le_foldl_max (l : List Nat) (a : Nat) : a ≤ l.foldl max a := by
  induction l generalizing a with
  | nil => exact le_rfl
  | cons x l ih => exact le_trans (le_max_left a x) (ih (max a x))

theorem mem_le_foldl_max (l : List Nat) (a : Nat) :
    ∀ x ∈ l, x ≤ l.foldl max a := by
  induction l generalizing a with
  | nil => intro x hx; cases hx
  | cons y l ih =>
    intro x hx
    rcases List.mem_cons.mp hx with rfl | hx
    · exact le_trans (le_max_right a x) (le_foldl_max l (max a x))
    · exact ih (max a y) x hx

theorem foldl_max_mem (l : List Nat) (a : Nat) :
    l.foldl max a = a ∨ l.foldl max a ∈ l := by
  induction l generalizing a with
  | nil => left; rfl
  | cons y l ih =>
    rcases ih (max a y) with h | h
    · by_cases hy : a ≤ y
      · right
        rw [List.foldl_cons, h, max_eq_right hy]
        exact List.mem_cons_self _ _
      · left
        rw [List.foldl_cons, h, max_eq_left (le_of_not_le hy)]
    · right
      exact List.mem_cons_of_mem _ h

theorem sparkGlyph_mem (m c : Nat) : sparkGlyph m c ∈ sparkChars := by
  unfold sparkGlyph
  have hlen : sparkChars.length = 8 := rfl
  have h : min ((14 * c + m) / (2 * m)) 7 < sparkChars.length := by omega
  rw [List.getD_eq_get _ _ h]
  exact List.get_mem _ _ _

theorem sparkGlyph_top (m : Nat) (hm : 0 < m) : sparkGlyph m m = '█' := by
  unfold sparkGlyph
  have hdiv : (14 * m + m) / (2 * m) = 7 :=
    Nat.div_eq_of_lt_le (by omega) (by omega)
  rw [hdiv]
  rfl

theorem sparkCounts_max_pos (lf : Int → ℚ) (samples : List Int)
    (lmin lmax : ℚ) (bins : Nat) (hne : samples ≠ []) (hbins : 0 < bins) :
    0 < (sparkCounts lf (sparkSorted samples) lmin lmax bins).foldl max 0 := by
  have hsne : sparkSorted samples ≠ [] := sparkSorted_ne_nil hne
  have hd0 : (sparkSorted samples).head hsne ∈ sparkSorted samples :=
    List.head_mem hsne
  have hjb : binIdx lf lmin lmax bins ((sparkSorted samples).head hsne) < bins :=
    binIdx_lt lf lmin lmax bins _ hbins
  have hjb2 : binIdx lf lmin lmax bins ((sparkSorted samples).head hsne)
      < (sparkCounts lf (sparkSorted samples) lmin lmax bins).length := by
    rw [sparkCounts_length]; exact hjb
  have hget := sparkCounts_get lf (sparkSorted samples) lmin lmax bins _ hjb2
  have hmem : (sparkSorted samples).head hsne ∈
      (sparkSorted samples).filter
        (fun d => binIdx lf lmin lmax bins d
          = binIdx lf lmin lmax bins ((sparkSorted samples).head hsne)) :=
    List.mem_filter.mpr ⟨hd0, by simp⟩
  have hpos : 0 < ((sparkSorted samples).filter
      (fun d => binIdx lf lmin lmax bins d
        = binIdx lf lmin lmax bins ((sparkSorted samples).head hsne))).length :=
    List.length_pos.mpr (List.ne_nil_of_mem hmem)
  calc 0 < (sparkCounts lf (sparkSorted samples) lmin lmax bins).get
        ⟨_, hjb2⟩ := by rw [hget]; exact hpos
    _ ≤ _ := mem_le_foldl_max _ 0 _ (List.get_mem _ _ _)

/-- C8: for every non-empty sample list and positive bin count, the
sparkline pipeline clamps non-positive durations to 1ns, renders exactly
`bins` glyphs all drawn from the eight density characters, maps the busiest
bucket to the fullest glyph, and collapses to `bins` copies of the
fully-saturated glyph when the 1st and 99th percentiles coincide. -/
theorem sparkline_spec (lf : Int → ℚ) (samples : List Int) (bins : Nat)
    (hne : samples ≠ []) (hbins : 0 < bins) :
    (∀ d ∈ sparkSorted samples, 1 ≤ d) ∧
    (sparkline lf samples bins).1 = (sparkSorted samples).getD 0 0 ∧
    (sparkline lf samples bins).2.1
        = (sparkSorted samples).getD ((sparkSorted samples).length - 1) 0 ∧
    sparkLo samples ≤ sparkHi samples ∧
    (sparkline lf samples bins).2.2.length = bins ∧
    (∀ ch ∈ (sparkline lf samples bins).2.2, ch ∈ sparkChars) ∧
    (sparkLo samples = sparkHi samples →
      (sparkline lf samples bins).2.2 = List.replicate bins '█') ∧
    (sparkLo samples ≠ sparkHi samples →
      ∃ i, ∃ hcnt : i < (sparkCounts lf (sparkSorted samples)
          (lf (sparkLo samples)) (lf (sparkHi samples)) bins).length,
        (sparkCounts lf (sparkSorted samples) (lf (sparkLo samples))
            (lf (sparkHi samples)) bins).get ⟨i, hcnt⟩
          = (sparkCounts lf (sparkSorted samples) (lf (sparkLo samples))
              (lf (sparkHi samples)) bins).foldl max 0 ∧
        (sparkline lf samples bins).2.2.getD i ' ' = '█') := by
  have hcond : ¬(samples = [] ∨ bins = 0) := by
    push_neg
    exact ⟨hne, by omega⟩
  have hmax := sparkCounts_max_pos lf samples (lf (sparkLo samples))
    (lf (sparkHi samples)) bins hne hbins
  refine ⟨fun d hd => clampPos_pos _ d hd, ?_, ?_, sparkLo_le_sparkHi hne,
    ?_, ?_, ?_, ?_⟩
  · unfold sparkline
    rw [if_neg hcond]
    split_ifs <;> rfl
  · unfold sparkline
    rw [if_neg hcond]
    split_ifs <;> rfl
  · unfold sparkline
    rw [if_neg hcond]
    split_ifs with h1 h2
    · exact List.length_replicate _ _
    · omega
    · rw [List.length_map, sparkCounts_length]
  · unfold sparkline
    rw [if_neg hcond]
    split_ifs with h1 h2
    · intro ch hch
      rw [(List.mem_replicate.mp hch).2]
      decide
    · intro ch hch
      cases hch
    · intro ch hch
      obtain ⟨c, hc, rfl⟩ := List.mem_map.mp hch
      exact sparkGlyph_mem _ _
  · intro heq
    unfold sparkline
    rw [if_neg hcond, if_pos (le_of_eq heq.symm)]
  · intro hneq
    have hlt : ¬ sparkHi samples ≤ sparkLo samples := by
      have := sparkLo_le_sparkHi hne
      omega
    rcases foldl_max_mem (sparkCounts lf (sparkSorted samples)
        (lf (sparkLo samples)) (lf (sparkHi samples)) bins) 0 with h0 | hmem
    · omega
    · obtain ⟨⟨i, hi⟩, hig⟩ := List.mem_iff_get.mp hmem
      refine ⟨i, hi, hig, ?_⟩
      unfold sparkline
      rw [if_neg hcond, if_neg hlt, if_neg (by omega)]
      have hi2 : i < ((sparkCounts lf (sparkSorted samples)
          (lf (sparkLo samples)) (lf (sparkHi samples)) bins).map
            (sparkGlyph ((sparkCounts lf (sparkSorted samples)
              (lf (sparkLo samples)) (lf (sparkHi samples)) bins).foldl
                max 0))).length := by
        rw [List.length_map]; exact hi
      rw [List.getD_eq_get _ _ hi2]
      have hgm : ((sparkCounts lf (sparkSorted samples)
          (lf (sparkLo samples)) (lf (sparkHi samples)) bins).map
            (sparkGlyph ((sparkCounts lf (sparkSorted samples)
              (lf (sparkLo samples)) (lf (sparkHi samples)) bins).foldl
                max 0))).get ⟨i, hi2⟩
          = sparkGlyph ((sparkCounts lf (sparkSorted samples)
              (lf (sparkLo samples)) (lf (sparkHi samples)) bins).foldl
                max 0)
              ((sparkCounts lf (sparkSorted samples) (lf (sparkLo samples))
                (lf (sparkHi samples)) bins).get ⟨i, hi⟩) := by
        simp
      rw [hgm, hig]
      exact sparkGlyph_top _ hmax

/-- Witness for C8 at a concrete sample list, bin count and transform. -/
theorem sparkline_spec_witness :
    (sparkline (fun _ => (0 : ℚ)) [5, -3] 3).2.2.length = 3 :=
  (sparkline_spec (fun _ => (0 : ℚ)) [5, -3] 3 (by decide)
    (by decide)).2.2.2.2.1

end ChaiBench
